import Mathlib

/- Shallow embedding of the filename classification engine of
   `backend/server.py`: class `FileAnalyzer` (the seven category pattern
   tables, `analyze_filename`, `_extract_year`, `_extract_season_episode`),
   `format_file_size`, `get_quality_emoji` and `format_analysis_response`.

   Modelling notes.
   * Filenames are `String`s; matching operates on `List Char`.
   * Python `str.lower()` is modelled characterwise by `Char.toLower`
     (exact on ASCII, which is all any pattern literal inspects).
   * The regular expressions of the source use a very restricted language:
     alternations of literal words wrapped in `\b ... \b`, one negative
     lookahead (`\bweb(?!rip|dl)\b`), an optional literal (`h\.?264`), one
     wildcard dot (`dolby.vision`), `\.ext$` suffix anchors, and the two
     numeric extractors.  They are embedded by `Tok`/`Pat` below.
   * `\w` is modelled as ASCII alphanumeric-or-underscore and `\d` as ASCII
     digits (Python's classes are Unicode supersets; every pattern literal
     is ASCII, and none of the properties proved here depend on the exact
     extension of the class).
   * Every alternative of every word pattern begins and ends with a word
     character, so the `\b` to its left (right) is equivalent to: the
     preceding (following) character is absent or not a word character.
     The scanners realise the boundaries that way.
   * Without `re.MULTILINE`, `$` matches at the end of the string or just
     before a final newline; `suffEnd` keeps both positions.
   * The wildcard `.` matches any character except a newline.
-/

namespace Metadata

/-- Python `\w` (ASCII fragment): letters, digits, underscore. -/
def isWordChar (c : Char) : Bool := c.isAlphanum || c = '_'

/-- Left word boundary of a match starting with a word character: the
preceding character (if any) is not a word character. -/
def prevOk : Option Char → Bool
  | none => true
  | some c => !isWordChar c

/-- Right word boundary of a match ending with a word character: the
following character (if any) is not a word character. -/
def nextOk : List Char → Bool
  | [] => true
  | c :: _ => !isWordChar c

/-- One token of a regex alternative: a literal character, the `.`
wildcard, or an optional literal (`x?`). -/
inductive Tok where
  | lit (c : Char)
  | any
  | opt (c : Char)
deriving DecidableEq

/-- The literal word `s` as a token sequence. -/
def lits (s : String) : List Tok := s.data.map Tok.lit

/-- All remainders of the input after matching the token sequence at its
head; the two branches of `x?` are both produced (greedy branch first),
reflecting the backtracking of the Python engine. -/
def matchToksRem : List Tok → List Char → List (List Char)
  | [], rest => [rest]
  | Tok.lit _ :: _, [] => []
  | Tok.lit c :: ts, d :: rest => if d = c then matchToksRem ts rest else []
  | Tok.any :: _, [] => []
  | Tok.any :: ts, d :: rest => if d = '\n' then [] else matchToksRem ts rest
  | Tok.opt _ :: ts, [] => matchToksRem ts []
  | Tok.opt c :: ts, d :: rest =>
      (if d = c then matchToksRem ts rest else []) ++ matchToksRem ts (d :: rest)

/-- Does some alternative match at the head of `cs`, with `after`
accepting the remainder (right boundary and lookahead checks)? -/
def altHere (after : List Char → Bool) (alts : List (List Tok)) (cs : List Char) : Bool :=
  alts.any fun a => (matchToksRem a cs).any after

/-- The `re.search`-style scan: try `g` at every position, left to right;
`prev` is the character just before the current position. -/
def scanB (g : Option Char → List Char → Bool) : Option Char → List Char → Bool
  | prev, [] => g prev []
  | prev, c :: cs => g prev (c :: cs) || scanB g (some c) cs

/-- Leftmost-match scan returning the value produced at the first position
where `g` succeeds. -/
def scanO {α : Type} (g : Option Char → List Char → Option α) :
    Option Char → List Char → Option α
  | prev, [] => g prev []
  | prev, c :: cs =>
    match g prev (c :: cs) with
    | some a => some a
    | none => scanO g (some c) cs

/-- The character just before position `i` of `cs` (`prev` when `i = 0`). -/
def prevAt (prev : Option Char) (cs : List Char) (i : Nat) : Option Char :=
  if i = 0 then prev else cs.get? (i - 1)

/-- A category pattern of the source: a `\b(w1|w2|...)\b` word alternation,
the same with a negative lookahead after the word, or a `\.(e1|e2)$`
suffix anchor. -/
inductive Pat where
  | words (alts : List (List Tok))
  | wordsNot (alts : List (List Tok)) (blocked : List (List Char))
  | ext (exts : List (List Char))

/-- The `$`-anchored literal suffix: at the very end, or just before a final
newline (Python `re` semantics of `$` without MULTILINE). -/
def suffEnd (p cs : List Char) : Bool :=
  p.isSuffixOf cs || (p ++ ['\n']).isSuffixOf cs

/-- Position test of a word alternation. -/
def gWords (alts : List (List Tok)) (prev : Option Char) (l : List Char) : Bool :=
  prevOk prev && altHere nextOk alts l

/-- Position test of a word alternation with a negative lookahead on the
remainder (for `\bweb(?!rip|dl)\b`). -/
def gWordsNot (alts : List (List Tok)) (blocked : List (List Char))
    (prev : Option Char) (l : List Char) : Bool :=
  prevOk prev &&
    altHere (fun rest => !(blocked.any fun b => b.isPrefixOf rest) && nextOk rest) alts l

/-- The `re.search(pattern, cs) is not None` for the three pattern shapes. -/
def pmatch : Pat → List Char → Bool
  | Pat.words alts, cs => scanB (gWords alts) none cs
  | Pat.wordsNot alts blocked, cs => scanB (gWordsNot alts blocked) none cs
  | Pat.ext exts, cs => exts.any fun e => suffEnd ('.' :: e) cs

/-- The `self.quality_patterns` in declaration (= iteration) order. -/
def quality_patterns : List (String × Pat) := [
  ("CAM", Pat.words [lits "cam", lits "camrip", lits "cam-rip"]),
  ("CAMRip", Pat.words [lits "camrip", lits "cam-rip"]),
  ("TS", Pat.words [lits "ts", lits "telesync", lits "tele-sync"]),
  ("TC", Pat.words [lits "tc", lits "telecine", lits "tele-cine"]),
  ("WP", Pat.words [lits "wp", lits "workprint", lits "work-print"]),
  ("DVDScr", Pat.words [lits "dvdscr", lits "dvd-scr", lits "dvdscreener"]),
  ("R5", Pat.words [lits "r5"]),
  ("DVDRip", Pat.words [lits "dvdrip", lits "dvd-rip"]),
  ("BDRip", Pat.words [lits "bdrip", lits "bd-rip", lits "bluray-rip"]),
  ("BRRip", Pat.words [lits "brrip", lits "br-rip"]),
  ("HDRip", Pat.words [lits "hdrip", lits "hd-rip"]),
  ("HDTV", Pat.words [lits "hdtv", lits "hd-tv"]),
  ("PDTV", Pat.words [lits "pdtv", lits "pd-tv"]),
  ("DSRip", Pat.words [lits "dsrip", lits "ds-rip"]),
  ("WEB-DL", Pat.words [lits "web-dl", lits "webdl", lits "web.dl"]),
  ("WEBRip", Pat.words [lits "webrip", lits "web-rip", lits "web.rip"]),
  ("WEB", Pat.wordsNot [lits "web"] ["rip".data, "dl".data]),
  ("BluRay", Pat.words [lits "bluray", lits "blu-ray", lits "bdrip", lits "bdremux"]),
  ("UHD", Pat.words [lits "uhd", lits "ultra.hd", lits "4k.uhd"]),
  ("REMUX", Pat.words [lits "remux", lits "re-mux"]),
  ("REPACK", Pat.words [lits "repack", lits "re-pack"]),
  ("PROPER", Pat.words [lits "proper"]),
  ("REAL", Pat.words [lits "real"]),
  ("RETAIL", Pat.words [lits "retail"]),
  ("UNCUT", Pat.words [lits "uncut"]),
  ("EXTENDED", Pat.words [lits "extended", lits "ext"]),
  ("REMASTERED", Pat.words [lits "remastered", lits "remaster"])]

/-- The `self.resolution_patterns`. -/
def resolution_patterns : List (String × Pat) := [
  ("4K", Pat.words [lits "4k", lits "2160p", lits "uhd", lits "ultra.hd"]),
  ("2K", Pat.words [lits "2k", lits "1440p"]),
  ("1080p", Pat.words [lits "1080p", lits "1080i", lits "full.hd", lits "fullhd"]),
  ("720p", Pat.words [lits "720p", lits "720i", lits "hd"]),
  ("576p", Pat.words [lits "576p", lits "576i"]),
  ("480p", Pat.words [lits "480p", lits "480i", lits "sd"]),
  ("360p", Pat.words [lits "360p"]),
  ("240p", Pat.words [lits "240p"])]

/-- The `self.video_codec_patterns` (`h\.?264` carries the optional dot). -/
def video_codec_patterns : List (String × Pat) := [
  ("H.264", Pat.words [lits "h" ++ [Tok.opt '.'] ++ lits "264", lits "x264", lits "avc"]),
  ("H.265", Pat.words [lits "h" ++ [Tok.opt '.'] ++ lits "265", lits "x265", lits "hevc"]),
  ("VP9", Pat.words [lits "vp9"]),
  ("VP8", Pat.words [lits "vp8"]),
  ("XviD", Pat.words [lits "xvid"]),
  ("DivX", Pat.words [lits "divx"]),
  ("AV1", Pat.words [lits "av1"])]

/-- The `self.audio_codec_patterns`. -/
def audio_codec_patterns : List (String × Pat) := [
  ("AAC", Pat.words [lits "aac"]),
  ("AC3", Pat.words [lits "ac3", lits "ac-3"]),
  ("DTS", Pat.words [lits "dts", lits "dts-hd"]),
  ("MP3", Pat.words [lits "mp3"]),
  ("FLAC", Pat.words [lits "flac"]),
  ("OGG", Pat.words [lits "ogg"]),
  ("Opus", Pat.words [lits "opus"]),
  ("EAC3", Pat.words [lits "eac3", lits "eac-3", lits "e-ac-3"])]

/-- The `self.format_patterns` (all anchored to the filename suffix). -/
def format_patterns : List (String × Pat) := [
  ("MKV", Pat.ext ["mkv".data]),
  ("MP4", Pat.ext ["mp4".data]),
  ("AVI", Pat.ext ["avi".data]),
  ("WMV", Pat.ext ["wmv".data]),
  ("FLV", Pat.ext ["flv".data]),
  ("MOV", Pat.ext ["mov".data]),
  ("M4V", Pat.ext ["m4v".data]),
  ("WebM", Pat.ext ["webm".data]),
  ("OGV", Pat.ext ["ogv".data]),
  ("MTS", Pat.ext ["mts".data]),
  ("M2TS", Pat.ext ["m2ts".data]),
  ("TS", Pat.ext ["ts".data]),
  ("MPG", Pat.ext ["mpg".data, "mpeg".data]),
  ("VOB", Pat.ext ["vob".data]),
  ("ASF", Pat.ext ["asf".data]),
  ("3GP", Pat.ext ["3gp".data])]

/-- The `self.language_patterns`. -/
def language_patterns : List (String × Pat) := [
  ("English", Pat.words [lits "eng", lits "english", lits "en"]),
  ("Hindi", Pat.words [lits "hin", lits "hindi", lits "hi"]),
  ("Spanish", Pat.words [lits "spa", lits "spanish", lits "es"]),
  ("French", Pat.words [lits "fre", lits "french", lits "fr"]),
  ("German", Pat.words [lits "ger", lits "german", lits "de"]),
  ("Italian", Pat.words [lits "ita", lits "italian", lits "it"]),
  ("Japanese", Pat.words [lits "jpn", lits "japanese", lits "ja"]),
  ("Korean", Pat.words [lits "kor", lits "korean", lits "ko"]),
  ("Chinese", Pat.words [lits "chi", lits "chinese", lits "zh"]),
  ("Russian", Pat.words [lits "rus", lits "russian", lits "ru"])]

/-- The `self.source_patterns`. -/
def source_patterns : List (String × Pat) := [
  ("Netflix", Pat.words [lits "netflix", lits "nf"]),
  ("Amazon Prime", Pat.words [lits "amzn", lits "amazon"]),
  ("Disney+", Pat.words [lits "dsnp", lits "disney"]),
  ("HBO Max", Pat.words [lits "hmax", lits "hbo"]),
  ("Apple TV+", Pat.words [lits "atvp", lits "apple"]),
  ("Hulu", Pat.words [lits "hulu"]),
  ("Peacock", Pat.words [lits "pcok"]),
  ("Paramount+", Pat.words [lits "pmtp"]),
  ("YouTube", Pat.words [lits "youtube", lits "yt"]),
  ("BBC iPlayer", Pat.words [lits "bbc"]),
  ("iTunes", Pat.words [lits "itunes"])]

/-- The inline auxiliary patterns of `analyze_filename`. -/
def subtitle_pat : Pat := Pat.words [lits "sub", lits "subs", lits "subtitle", lits "subtitles"]

def multi_audio_pat : Pat := Pat.words [lits "dual", lits "multi", lits "multilang"]

def threeD_pat : Pat := Pat.words [lits "3d"]

/-- The `\b(hdr|hdr10|dolby.vision)\b` — note the unescaped dot: a wildcard. -/
def hdr_pat : Pat := Pat.words [lits "hdr", lits "hdr10", lits "dolby" ++ [Tok.any] ++ lits "vision"]

/-- One `for ... if re.search ... break` loop of `analyze_filename`: the
label of the first rule whose pattern matches, in table order. -/
def selectLabel : List (String × Pat) → List Char → Option String
  | [], _ => none
  | r :: rest, cs => if pmatch r.2 cs then some r.1 else selectLabel rest cs

/-- The `filename.lower()`, characterwise. -/
def lowerData (s : String) : List Char := s.data.map Char.toLower

/-- The `\b(19|20)\d{2}\b` tried at a single position (the alternation is
followed by two digit classes and the closing boundary). -/
def yearAt (prev : Option Char) (l : List Char) : Option String :=
  match l with
  | a :: b :: c :: d :: rest =>
    if prevOk prev && ((a == '1' && b == '9') || (a == '2' && b == '0'))
        && c.isDigit && d.isDigit && nextOk rest
    then some (String.mk [a, b, c, d]) else none
  | _ => none

/-- The `FileAnalyzer._extract_year`: leftmost `\b(19|20)\d{2}\b` match in the
original (not lower-cased) filename. -/
def _extract_year (filename : String) : Option String :=
  scanO yearAt none filename.data

/-- Maximal digit prefix of a list together with the rest (`\d+`, greedy). -/
def takeDigits : List Char → List Char × List Char
  | [] => ([], [])
  | c :: cs =>
    if c.isDigit then
      let p := takeDigits cs
      (c :: p.1, p.2)
    else ([], c :: cs)

/-- Match a literal word at the head, returning the remainder. -/
def stripLit : List Char → List Char → Option (List Char)
  | [], l => some l
  | _ :: _, [] => none
  | c :: cs, d :: l => if d = c then stripLit cs l else none

/-- The `s(\d+)e(\d+)` at one position.  The greedy `\d+` groups need no
backtracking: giving a digit back would require that digit to match the
literal `e` (first group) or end the match early (last group). -/
def matchSE1At : List Char → Option (List Char × List Char)
  | 's' :: rest =>
    let p := takeDigits rest
    if p.1.isEmpty then none
    else
      match p.2 with
      | 'e' :: r2 =>
        let q := takeDigits r2
        if q.1.isEmpty then none else some (p.1, q.1)
      | _ => none
  | _ => none

/-- Nonempty greedy digit group (`(\d+)` with nothing after it). -/
def se2Num (l : List Char) : Option (List Char) :=
  let q := takeDigits l
  if q.1.isEmpty then none else some q.1

/-- The `.?(\d+)` after the literal `episode`: the greedy `.?` may consume one
non-newline character (possibly a digit) before the group; on failure it
backtracks to consuming nothing. -/
def se2AfterEp (rest : List Char) : Option (List Char) :=
  match rest with
  | c :: r =>
    if c = '\n' then se2Num rest
    else
      match se2Num r with
      | some g => some g
      | none => se2Num rest
  | [] => se2Num []

/-- The `.?episode.?(\d+)`: both branches of the first `.?`, greedy first. -/
def se2Mid (rest : List Char) : Option (List Char) :=
  let ep := fun (l : List Char) =>
    match stripLit ("episode".data) l with
    | some r2 => se2AfterEp r2
    | none => none
  match rest with
  | c :: r =>
    if c = '\n' then ep rest
    else
      match ep r with
      | some g => some g
      | none => ep rest
  | [] => ep []

/-- Backtracking of the greedy first group `(\d+)` of the `season` pattern:
try the longest digit prefix first, then give digits back one at a time.
`d` is the maximal digit run, `r` what follows it. -/
def se2TryK (d : List Char) (r : List Char) : Nat → Option (List Char × List Char)
  | 0 => none
  | Nat.succ k =>
    match se2Mid (d.drop (k + 1) ++ r) with
    | some g2 => some (d.take (k + 1), g2)
    | none => se2TryK d r k

/-- The `(\d+).?episode.?(\d+)` at the current position. -/
def se2Digits (rest : List Char) : Option (List Char × List Char) :=
  let p := takeDigits rest
  if p.1.isEmpty then none else se2TryK p.1 p.2 p.1.length

/-- The `season.?(\d+).?episode.?(\d+)` at one position. -/
def matchSE2At (l : List Char) : Option (List Char × List Char) :=
  match stripLit ("season".data) l with
  | none => none
  | some r =>
    match r with
    | c :: r2 =>
      if c = '\n' then se2Digits r
      else
        match se2Digits r2 with
        | some g => some g
        | none => se2Digits r
    | [] => se2Digits []

/-- The `(\d+)x(\d+)` at one position (greedy groups, no backtracking needed:
a digit given back would have to match the literal `x`). -/
def matchSE3At (l : List Char) : Option (List Char × List Char) :=
  let p := takeDigits l
  if p.1.isEmpty then none
  else
    match p.2 with
    | 'x' :: r2 =>
      let q := takeDigits r2
      if q.1.isEmpty then none else some (p.1, q.1)
    | _ => none

/-- The `re.search(r's(\d+)e(\d+)', ...)`: leftmost match, captured groups. -/
def searchSE1 (cs : List Char) : Option (List Char × List Char) :=
  scanO (fun _ l => matchSE1At l) none cs

/-- The `re.search(r'season.?(\d+).?episode.?(\d+)', ...)`. -/
def searchSE2 (cs : List Char) : Option (List Char × List Char) :=
  scanO (fun _ l => matchSE2At l) none cs

/-- The `re.search(r'(\d+)x(\d+)', ...)`. -/
def searchSE3 (cs : List Char) : Option (List Char × List Char) :=
  scanO (fun _ l => matchSE3At l) none cs

/-- Python `str.zfill(2)` on a digit group: pad on the left with zeros to
at least width two (longer groups are kept whole). -/
def zfill2 (g : List Char) : String :=
  if g.length < 2 then String.mk (List.replicate (2 - g.length) '0' ++ g)
  else String.mk g

/-- The `f"S{m.group(1).zfill(2)}E{m.group(2).zfill(2)}"`. -/
def seFmt (g : List Char × List Char) : String :=
  "S" ++ zfill2 g.1 ++ "E" ++ zfill2 g.2

/-- The `FileAnalyzer._extract_season_episode`: the three pattern families in
priority order, each searched over the whole lower-cased filename. -/
def _extract_season_episode (filename : String) : Option String :=
  let low := lowerData filename
  match searchSE1 low with
  | some g => some (seFmt g)
  | none =>
    match searchSE2 low with
    | some g => some (seFmt g)
    | none =>
      match searchSE3 low with
      | some g => some (seFmt g)
      | none => none

/-- The `format_details` dict of `analyze_filename`.  Built with all six
keys on every call, so the dict is never empty (relevant to the
truthiness test in the renderer). -/
structure FormatDetails where
  has_subtitles : Bool
  has_multiple_audio : Bool
  is_3d : Bool
  is_hdr : Bool
  year : Option String
  season_episode : Option String

/-- The `AnalysisResult` pydantic model. -/
structure AnalysisResult where
  filename : String
  file_type : String
  quality : Option String
  resolution : Option String
  codec : Option String
  audio_codec : Option String
  language : Option String
  source : Option String
  format_details : FormatDetails

/-- The `FileMetadata` pydantic model. -/
structure FileMetadata where
  file_id : String
  file_name : String
  file_size : Option Int
  mime_type : Option String
  file_unique_id : String

/-- The `FileAnalyzer.analyze_filename`. -/
def analyze_filename (filename : String) : AnalysisResult :=
  let filename_lower := lowerData filename
  { filename := filename
    file_type := (selectLabel format_patterns filename_lower).getD "Unknown"
    quality := selectLabel quality_patterns filename_lower
    resolution := selectLabel resolution_patterns filename_lower
    codec := selectLabel video_codec_patterns filename_lower
    audio_codec := selectLabel audio_codec_patterns filename_lower
    language := selectLabel language_patterns filename_lower
    source := selectLabel source_patterns filename_lower
    format_details :=
      { has_subtitles := pmatch subtitle_pat filename_lower
        has_multiple_audio := pmatch multi_audio_pat filename_lower
        is_3d := pmatch threeD_pat filename_lower
        is_hdr := pmatch hdr_pat filename_lower
        year := _extract_year filename
        season_episode := _extract_season_episode filename } }

/-- Round a rational to the nearest integer, ties to even — the rounding
CPython's `format(x, '.1f')` applies to the (here exactly representable)
value at the last kept digit. -/
def roundHalfEven (x : ℚ) : ℤ :=
  let f := x.floor
  let r := x - (f : ℚ)
  if r < 1 / 2 then f
  else if 1 / 2 < r then f + 1
  else if f % 2 = 0 then f else f + 1

/-- Digits of a nonnegative number of tenths as `"<int>.<tenth>"`. -/
def natTenths (t : Nat) : String :=
  toString (t / 10) ++ "." ++ toString (t % 10)

/-- The `f"{x:.1f}"`.  The byte counts reach this function divided by powers of
1024, operations that are exact in binary floating point below 2^53, so
rational arithmetic models the Python float exactly there. -/
def oneDecimal (q : ℚ) : String :=
  let t := roundHalfEven (q * 10)
  if t < 0 then "-" ++ natTenths (-t).toNat else natTenths t.toNat

/-- The unit list of `format_file_size`'s loop (`PB` is the fallthrough). -/
def size_units : List String := ["B", "KB", "MB", "GB", "TB"]

/-- The `for unit in [...]` loop of `format_file_size`. -/
def fsLoop : List String → ℚ → String
  | [], q => oneDecimal q ++ " PB"
  | u :: us, q => if q < 1024 then oneDecimal q ++ " " ++ u else fsLoop us (q / 1024)

/-- The `format_file_size`.  Python's `if not size_bytes:` is true for both
`None` and `0`, so a zero size also renders as `"Unknown"`. -/
def format_file_size (size_bytes : Option Int) : String :=
  match size_bytes with
  | none => "Unknown"
  | some n => if n = 0 then "Unknown" else fsLoop size_units (n : ℚ)

/-- The lookup table of `get_quality_emoji` (the repository's strings are
stored double-encoded; the characters are copied verbatim). -/
def quality_emojis : List (String × String) := [
  ("CAM", "üì∑"),
  ("TS", "üìΩÔ∏è"),
  ("DVDRip", "üíø"),
  ("BluRay", "üíé"),
  ("WEB-DL", "üåê"),
  ("WEBRip", "üåê"),
  ("HDTV", "üì∫"),
  ("UHD", "üëë"),
  ("REMUX", "‚ú®")]

/-- The `get_quality_emoji`: `dict.get` with the generic default marker. -/
def get_quality_emoji (quality : String) : String :=
  (quality_emojis.lookup quality).getD "üé¨"

/-- Python truthiness of an optional string guarding a report line:
`None` and the empty string suppress the line. -/
def optLine (o : Option String) (line : String → String) : String :=
  match o with
  | some v => if !v.isEmpty then line v else ""
  | none => ""

/-- The `format_analysis_response`, the sequential `response += ...` chain.
The `if analysis.format_details:` guard of the source is omitted: the
details dict always carries its six keys, so the guard is always taken. -/
def format_analysis_response (analysis : AnalysisResult)
    (file_info : Option FileMetadata) : String :=
  let response := "üé¨ **File Analysis Results**\n\n"
  let response := response ++ "üìÅ **Filename:** `" ++ analysis.filename ++ "`\n"
  let response :=
    match file_info with
    | some fi =>
      let r := response ++ "üíæ **File Size:** " ++ format_file_size fi.file_size ++ "\n"
      match fi.mime_type with
      | some m =>
        if !m.isEmpty then r ++ "üìã **MIME Type:** `" ++ m ++ "`\n" else r
      | none => r
    | none => response
  let response := response ++ "\n**üîç Detected Metadata:**\n"
  let response := response ++ "‚Ä¢ **Format:** " ++ analysis.file_type ++ "\n"
  let response := response ++ optLine analysis.quality
    (fun v => "‚Ä¢ **Quality:** " ++ get_quality_emoji v ++ " " ++ v ++ "\n")
  let response := response ++ optLine analysis.resolution
    (fun v => "‚Ä¢ **Resolution:** üì∫ " ++ v ++ "\n")
  let response := response ++ optLine analysis.codec
    (fun v => "‚Ä¢ **Video Codec:** üé• " ++ v ++ "\n")
  let response := response ++ optLine analysis.audio_codec
    (fun v => "‚Ä¢ **Audio Codec:** üîä " ++ v ++ "\n")
  let response := response ++ optLine analysis.language
    (fun v => "‚Ä¢ **Language:** üåê " ++ v ++ "\n")
  let response := response ++ optLine analysis.source
    (fun v => "‚Ä¢ **Source:** üì∫ " ++ v ++ "\n")
  let d := analysis.format_details
  let response := response ++ optLine d.year
    (fun v => "‚Ä¢ **Year:** üìÖ " ++ v ++ "\n")
  let response := response ++ optLine d.season_episode
    (fun v => "‚Ä¢ **Episode:** üì∫ " ++ v ++ "\n")
  let response := response ++
    (if d.has_subtitles then "‚Ä¢ **Subtitles:** üí¨ Yes\n" else "")
  let response := response ++
    (if d.has_multiple_audio then "‚Ä¢ **Multi-Audio:** üéµ Yes\n" else "")
  let response := response ++
    (if d.is_3d then "‚Ä¢ **3D:** üï∂Ô∏è Yes\n" else "")
  let response := response ++
    (if d.is_hdr then "‚Ä¢ **HDR:** ‚ú® Yes\n" else "")
  response ++ "\n_Analysis completed successfully!_ ‚úÖ"

/- ---------------------------------------------------------------------
   Specification-side definitions, written from the spec's wording, used
   to state the claims (never used by the embedded code above).
   --------------------------------------------------------------------- -/

/-- The trailing extension segment of a filename: the part from the last
dot (inclusive) to the end; `none` when the name has no dot. -/
def lastDotSeg : List Char → Option (List Char)
  | [] => none
  | c :: cs =>
    match lastDotSeg cs with
    | some s => some s
    | none => if c = '.' then some (c :: cs) else none

/-- A rule is a suffix anchor whose extensions contain no dot. -/
def extRuleOk : Pat → Bool
  | Pat.ext exts => exts.all fun e => !(e.contains '.')
  | _ => false

/-- No word character immediately before position `i`. -/
def wordBoundBefore (cs : List Char) (i : Nat) : Bool :=
  match i with
  | 0 => true
  | j + 1 => !(Option.any isWordChar (cs.get? j))

/-- No word character at position `j` (the boundary after a match ending
just before `j`). -/
def wordBoundAfter (cs : List Char) (j : Nat) : Bool :=
  !(Option.any isWordChar (cs.get? j))

/-- Amended year condition at index `i`: a 19xx/20xx 4-digit run delimited
by word boundaries on both sides. -/
def yearIdxAt (cs : List Char) (i : Nat) : Bool :=
  wordBoundBefore cs i &&
  ((cs.get? i == some '1' && cs.get? (i + 1) == some '9') ||
   (cs.get? i == some '2' && cs.get? (i + 1) == some '0')) &&
  Option.any Char.isDigit (cs.get? (i + 2)) &&
  Option.any Char.isDigit (cs.get? (i + 3)) &&
  wordBoundAfter cs (i + 4)

/-- The claim's year condition at index `i`, as stated: a 4-digit run
starting 19/20 — maximal among digits (no digit on either side) but with
no word-boundary requirement. -/
def yearRunClaimAt (cs : List Char) (i : Nat) : Bool :=
  ((cs.get? i == some '1' && cs.get? (i + 1) == some '9') ||
   (cs.get? i == some '2' && cs.get? (i + 1) == some '0')) &&
  Option.any Char.isDigit (cs.get? (i + 2)) &&
  Option.any Char.isDigit (cs.get? (i + 3)) &&
  !(match i with
    | 0 => false
    | j + 1 => Option.any Char.isDigit (cs.get? j)) &&
  !(Option.any Char.isDigit (cs.get? (i + 4)))

/-- The claim C3 as stated: leftmost 19xx/20xx 4-digit run of the original
filename, no boundary requirement beyond digit-maximality. -/
def yearClaimFirst (s : String) : Option String :=
  ((List.range s.data.length).find? fun i => yearRunClaimAt s.data i).map
    fun i => String.mk ((s.data.drop i).take 4)

/-- Whole word `w` occurs at index `i` of `cs`. -/
def wordAtIdx (cs : List Char) (i : Nat) (w : List Char) : Bool :=
  ((cs.drop i).take w.length == w) && wordBoundBefore cs i &&
    wordBoundAfter cs (i + w.length)

/-- The `dolby`, any single non-newline character, `vision`, as a whole word
at index `i`. -/
def dolbyAnyAt (cs : List Char) (i : Nat) : Bool :=
  ((cs.drop i).take 5 == "dolby".data) &&
  (match cs.get? (i + 5) with
   | some c => c != '\n'
   | none => false) &&
  ((cs.drop (i + 6)).take 6 == "vision".data) &&
  wordBoundBefore cs i && wordBoundAfter cs (i + 12)

/-- Amended C5: the lower-cased name contains the whole word `hdr` or
`hdr10`, or `dolby` + any non-newline character + `vision`. -/
def hdrSpecAmended (s : String) : Bool :=
  (List.range ((lowerData s).length + 1)).any fun i =>
    wordAtIdx (lowerData s) i ("hdr".data) ||
    wordAtIdx (lowerData s) i ("hdr10".data) || dolbyAnyAt (lowerData s) i

/-- C5 as stated: the dot of `dolby.vision` read as a literal dot. -/
def hdrSpecClaim (s : String) : Bool :=
  (List.range ((lowerData s).length + 1)).any fun i =>
    wordAtIdx (lowerData s) i ("hdr".data) ||
    wordAtIdx (lowerData s) i ("hdr10".data) ||
    wordAtIdx (lowerData s) i ("dolby.vision".data)

/-- Number of divisions by 1024 the rendering loop performs. -/
def scaleIdx (q : ℚ) : Nat :=
  if q < 1024 then 0
  else if q < 1024 ^ 2 then 1
  else if q < 1024 ^ 3 then 2
  else if q < 1024 ^ 4 then 3
  else if q < 1024 ^ 5 then 4
  else 5

/-- The unit attached after `k` divisions by 1024. -/
def unitName (k : Nat) : String := (size_units ++ ["PB"]).getD k "PB"

/-- The report up to and including the filename line. -/
def renderHead (analysis : AnalysisResult) : String :=
  "üé¨ **File Analysis Results**\n\n" ++
  ("üìÅ **Filename:** `" ++ analysis.filename ++ "`\n")

/-- The file-size line and (when a nonempty MIME type is present) the
MIME-type line. -/
def fileInfoLines (fi : FileMetadata) : String :=
  ("üíæ **File Size:** " ++ format_file_size fi.file_size ++ "\n") ++
  (match fi.mime_type with
   | some m =>
     if !m.isEmpty then "üìã **MIME Type:** `" ++ m ++ "`\n" else ""
   | none => "")

/-- The report from the metadata header to the closing marker. -/
def renderTail (analysis : AnalysisResult) : String :=
  "\n**üîç Detected Metadata:**\n" ++
  ("‚Ä¢ **Format:** " ++ analysis.file_type ++ "\n") ++
  optLine analysis.quality
    (fun v => "‚Ä¢ **Quality:** " ++ get_quality_emoji v ++ " " ++ v ++ "\n") ++
  optLine analysis.resolution
    (fun v => "‚Ä¢ **Resolution:** üì∫ " ++ v ++ "\n") ++
  optLine analysis.codec
    (fun v => "‚Ä¢ **Video Codec:** üé• " ++ v ++ "\n") ++
  optLine analysis.audio_codec
    (fun v => "‚Ä¢ **Audio Codec:** üîä " ++ v ++ "\n") ++
  optLine analysis.language
    (fun v => "‚Ä¢ **Language:** üåê " ++ v ++ "\n") ++
  optLine analysis.source
    (fun v => "‚Ä¢ **Source:** üì∫ " ++ v ++ "\n") ++
  optLine analysis.format_details.year
    (fun v => "‚Ä¢ **Year:** üìÖ " ++ v ++ "\n") ++
  optLine analysis.format_details.season_episode
    (fun v => "‚Ä¢ **Episode:** üì∫ " ++ v ++ "\n") ++
  (if analysis.format_details.has_subtitles then
    "‚Ä¢ **Subtitles:** üí¨ Yes\n" else "") ++
  (if analysis.format_details.has_multiple_audio then
    "‚Ä¢ **Multi-Audio:** üéµ Yes\n" else "") ++
  (if analysis.format_details.is_3d then
    "‚Ä¢ **3D:** üï∂Ô∏è Yes\n" else "") ++
  (if analysis.format_details.is_hdr then
    "‚Ä¢ **HDR:** ‚ú® Yes\n" else "") ++
  "\n_Analysis completed successfully!_ ‚úÖ"

/-- First-match-wins for a category table: whenever rule `i` matches and
`j` comes after `i`, the selected label is that of the earliest matching
rule (some `k ≤ i` before which nothing matches) and never rule `j`'s. -/
def FirstMatchWins (t : List (String × Pat))
    (field : AnalysisResult → Option String) : Prop :=
  ∀ (s : String) (i j : Nat) (hi : i < t.length) (hj : j < t.length), i < j →
    pmatch (t.get ⟨i, hi⟩).2 (lowerData s) = true →
    (∃ k, ∃ (hk : k < t.length), k ≤ i ∧
      pmatch (t.get ⟨k, hk⟩).2 (lowerData s) = true ∧
      (∀ m (hm : m < t.length), m < k → pmatch (t.get ⟨m, hm⟩).2 (lowerData s) = false) ∧
      field (analyze_filename s) = some ((t.get ⟨k, hk⟩).1)) ∧
    field (analyze_filename s) ≠ some ((t.get ⟨j, hj⟩).1)

/- ---------------------------------------------------------------------
   Generic lemmas about the scanners and the first-match loop.
   --------------------------------------------------------------------- -/

theorem prevAt_succ_cons (prev : Option Char) (c : Char) (cs : List Char) (j : Nat) :
    prevAt prev (c :: cs) (j + 1) = prevAt (some c) cs j := by
  cases j with
  | zero => rfl
  | succ j => simp [prevAt]

theorem scanB_iff (g : Option Char → List Char → Bool) :
    ∀ (cs : List Char) (prev : Option Char),
      scanB g prev cs = true ↔
        ∃ i, i ≤ cs.length ∧ g (prevAt prev cs i) (cs.drop i) = true := by
  intro cs
  induction cs with
  | nil =>
    intro prev
    constructor
    · intro h
      exact ⟨0, Nat.le_refl 0, h⟩
    · rintro ⟨i, hi, h⟩
      have hz : i = 0 := Nat.le_zero.mp hi
      subst hz
      exact h
  | cons c cs ih =>
    intro prev
    constructor
    · intro h
      rcases (Bool.or_eq_true _ _).mp h with h0 | h1
      · exact ⟨0, Nat.zero_le _, h0⟩
      · obtain ⟨i, hi, hg⟩ := (ih (some c)).mp h1
        refine ⟨i + 1, Nat.succ_le_succ hi, ?_⟩
        rw [prevAt_succ_cons]
        exact hg
    · rintro ⟨i, hi, hg⟩
      show (g prev (c :: cs) || scanB g (some c) cs) = true
      cases i with
      | zero => exact (Bool.or_eq_true _ _).mpr (Or.inl hg)
      | succ i =>
        refine (Bool.or_eq_true _ _).mpr (Or.inr ((ih (some c)).mpr ⟨i, Nat.le_of_succ_le_succ hi, ?_⟩))
        rw [prevAt_succ_cons] at hg
        exact hg

theorem scanO_eq_some {α : Type} (g : Option Char → List Char → Option α) :
    ∀ (cs : List Char) (prev : Option Char) (a : α),
      scanO g prev cs = some a ↔
        ∃ i, i ≤ cs.length ∧ g (prevAt prev cs i) (cs.drop i) = some a ∧
          ∀ m, m < i → g (prevAt prev cs m) (cs.drop m) = none := by
  intro cs
  induction cs with
  | nil =>
    intro prev a
    constructor
    · intro h
      exact ⟨0, Nat.le_refl 0, h, fun m hm => absurd hm (Nat.not_lt_zero m)⟩
    · rintro ⟨i, hi, h, _⟩
      have hz : i = 0 := Nat.le_zero.mp hi
      subst hz
      exact h
  | cons c cs ih =>
    intro prev a
    constructor
    · intro h
      rw [scanO] at h
      cases h0 : g prev (c :: cs) with
      | some b =>
        rw [h0] at h
        refine ⟨0, Nat.zero_le _, ?_, fun m hm => absurd hm (Nat.not_lt_zero m)⟩
        show g prev (c :: cs) = some a
        rw [h0]
        exact h
      | none =>
        rw [h0] at h
        obtain ⟨i, hi, hg, hmin⟩ := (ih (some c) a).mp h
        refine ⟨i + 1, Nat.succ_le_succ hi, ?_, ?_⟩
        · rw [prevAt_succ_cons]
          exact hg
        · intro m hm
          cases m with
          | zero => exact h0
          | succ m =>
            rw [prevAt_succ_cons]
            exact hmin m (Nat.lt_of_succ_lt_succ hm)
    · rintro ⟨i, hi, hg, hmin⟩
      rw [scanO]
      cases i with
      | zero =>
        have hg0 : g prev (c :: cs) = some a := hg
        rw [hg0]
      | succ i =>
        have h00 : g prev (c :: cs) = none := hmin 0 (Nat.succ_pos i)
        rw [h00]
        refine (ih (some c) a).mpr ⟨i, Nat.le_of_succ_le_succ hi, ?_, ?_⟩
        · rw [prevAt_succ_cons] at hg
          exact hg
        · intro m hm
          have := hmin (m + 1) (Nat.succ_lt_succ hm)
          rw [prevAt_succ_cons] at this
          exact this

theorem scanO_eq_none {α : Type} (g : Option Char → List Char → Option α) :
    ∀ (cs : List Char) (prev : Option Char),
      scanO g prev cs = none ↔
        ∀ i, i ≤ cs.length → g (prevAt prev cs i) (cs.drop i) = none := by
  intro cs
  induction cs with
  | nil =>
    intro prev
    constructor
    · intro h i hi
      have hz : i = 0 := Nat.le_zero.mp hi
      subst hz
      exact h
    · intro h
      exact h 0 (Nat.le_refl 0)
  | cons c cs ih =>
    intro prev
    constructor
    · intro h i hi
      rw [scanO] at h
      cases h0 : g prev (c :: cs) with
      | some b => rw [h0] at h; exact absurd h (by simp)
      | none =>
        rw [h0] at h
        cases i with
        | zero => exact h0
        | succ i =>
          rw [prevAt_succ_cons]
          exact (ih (some c)).mp h i (Nat.le_of_succ_le_succ hi)
    · intro h
      rw [scanO]
      have h0 : g prev (c :: cs) = none := h 0 (Nat.zero_le _)
      rw [h0]
      refine (ih (some c)).mpr ?_
      intro i hi
      have := h (i + 1) (Nat.succ_le_succ hi)
      rw [prevAt_succ_cons] at this
      exact this

theorem selectLabel_mem (t : List (String × Pat)) (cs : List Char) :
    selectLabel t cs ∈ (none : Option String) :: t.map fun r => some r.1 := by
  induction t with
  | nil => simp [selectLabel]
  | cons r rest ih =>
    by_cases h : pmatch r.2 cs
    · simp [selectLabel, h]
    · simp only [selectLabel, h, ite_false, Bool.false_eq_true, if_neg]
      rcases List.mem_cons.mp ih with h0 | h1
      · exact h0 ▸ List.mem_cons_self _ _
      · exact List.mem_cons_of_mem _ (List.mem_cons_of_mem _ h1)

theorem selectLabel_first (t : List (String × Pat)) (cs : List Char) :
    ∀ i (hi : i < t.length), pmatch (t.get ⟨i, hi⟩).2 cs = true →
      ∃ k, ∃ (hk : k < t.length), k ≤ i ∧ pmatch (t.get ⟨k, hk⟩).2 cs = true ∧
        (∀ m (hm : m < t.length), m < k → pmatch (t.get ⟨m, hm⟩).2 cs = false) ∧
        selectLabel t cs = some ((t.get ⟨k, hk⟩).1) := by
  induction t with
  | nil => intro i hi; exact absurd hi (Nat.not_lt_zero i)
  | cons r rest ih =>
    intro i hi hmi
    by_cases h : pmatch r.2 cs
    · refine ⟨0, Nat.succ_pos _, Nat.zero_le _, h, ?_, ?_⟩
      · intro m hm hm0; exact absurd hm0 (Nat.not_lt_zero m)
      · simp [selectLabel, h]
    · cases i with
      | zero => exact absurd hmi (by simpa using h)
      | succ i =>
        obtain ⟨k, hk, hki, hkm, hmin, hsel⟩ :=
          ih i (Nat.lt_of_succ_lt_succ hi) hmi
        refine ⟨k + 1, Nat.succ_lt_succ hk, Nat.succ_le_succ hki, hkm, ?_, ?_⟩
        · intro m hm hmk
          cases m with
          | zero => simpa using h
          | succ m => exact hmin m (Nat.lt_of_succ_lt_succ hm) (Nat.lt_of_succ_lt_succ hmk)
        · simpa [selectLabel, h] using hsel

theorem selectLabel_eq_some (t : List (String × Pat)) (cs : List Char) (l : String) :
    selectLabel t cs = some l →
      ∃ k, ∃ (hk : k < t.length), pmatch (t.get ⟨k, hk⟩).2 cs = true ∧
        (t.get ⟨k, hk⟩).1 = l ∧
        ∀ m (hm : m < t.length), m < k → pmatch (t.get ⟨m, hm⟩).2 cs = false := by
  induction t with
  | nil => intro h; exact absurd h (by simp [selectLabel])
  | cons r rest ih =>
    intro h
    by_cases hp : pmatch r.2 cs
    · refine ⟨0, Nat.succ_pos _, hp, ?_, ?_⟩
      · simpa [selectLabel, hp] using h
      · intro m hm hm0; exact absurd hm0 (Nat.not_lt_zero m)
    · rw [selectLabel, if_neg (by simpa using hp)] at h
      obtain ⟨k, hk, hkm, hkl, hmin⟩ := ih h
      refine ⟨k + 1, Nat.succ_lt_succ hk, hkm, hkl, ?_⟩
      intro m hm hmk
      cases m with
      | zero => simpa using hp
      | succ m => exact hmin m (Nat.lt_of_succ_lt_succ hm) (Nat.lt_of_succ_lt_succ hmk)

/- ---------------------------------------------------------------------
   File-size rendering (C7, C10).
   --------------------------------------------------------------------- -/

theorem fsLoop_cons (u : String) (us : List String) (q : ℚ) :
    fsLoop (u :: us) q =
      if q < 1024 then oneDecimal q ++ " " ++ u else fsLoop us (q / 1024) := rfl

theorem fsLoop_nil (q : ℚ) : fsLoop [] q = oneDecimal q ++ " PB" := rfl

theorem div_pow_lt_iff (q : ℚ) (k : ℕ) :
    (q / 1024 ^ k < 1024) ↔ q < 1024 ^ (k + 1) := by
  rw [div_lt_iff₀ (by positivity), ← pow_succ']

theorem div_div_1024 (q : ℚ) (k : ℕ) :
    q / 1024 ^ k / 1024 = q / 1024 ^ (k + 1) := by
  rw [div_div, ← pow_succ]

/-- The unit loop scales by 1024 exactly `scaleIdx q` times and attaches
the corresponding unit. -/
theorem fsLoop_char (q : ℚ) :
    fsLoop size_units q =
      oneDecimal (q / 1024 ^ scaleIdx q) ++ " " ++ unitName (scaleIdx q) := by
  simp only [size_units]
  rw [fsLoop_cons]
  by_cases h0 : q < 1024
  · have hs : scaleIdx q = 0 := by unfold scaleIdx; rw [if_pos h0]
    rw [if_pos h0, hs, pow_zero, div_one]
    rfl
  · rw [if_neg h0, fsLoop_cons,
      show q / 1024 = q / 1024 ^ 1 from by rw [pow_one]]
    by_cases h1 : q / 1024 ^ 1 < 1024
    · have hq1 : q < 1024 ^ 2 := (div_pow_lt_iff q 1).mp h1
      have hs : scaleIdx q = 1 := by unfold scaleIdx; rw [if_neg h0, if_pos hq1]
      rw [if_pos h1, hs]
      rfl
    · have hq1 : ¬q < 1024 ^ 2 := fun hc => h1 ((div_pow_lt_iff q 1).mpr hc)
      rw [if_neg h1, fsLoop_cons, div_div_1024]
      by_cases h2 : q / 1024 ^ 2 < 1024
      · have hq2 : q < 1024 ^ 3 := (div_pow_lt_iff q 2).mp h2
        have hs : scaleIdx q = 2 := by
          unfold scaleIdx
          rw [if_neg h0, if_neg hq1, if_pos hq2]
        rw [if_pos h2, hs]
        rfl
      · have hq2 : ¬q < 1024 ^ 3 := fun hc => h2 ((div_pow_lt_iff q 2).mpr hc)
        rw [if_neg h2, fsLoop_cons, div_div_1024]
        by_cases h3 : q / 1024 ^ 3 < 1024
        · have hq3 : q < 1024 ^ 4 := (div_pow_lt_iff q 3).mp h3
          have hs : scaleIdx q = 3 := by
            unfold scaleIdx
            rw [if_neg h0, if_neg hq1, if_neg hq2, if_pos hq3]
          rw [if_pos h3, hs]
          rfl
        · have hq3 : ¬q < 1024 ^ 4 := fun hc => h3 ((div_pow_lt_iff q 3).mpr hc)
          rw [if_neg h3, fsLoop_cons, div_div_1024]
          by_cases h4 : q / 1024 ^ 4 < 1024
          · have hq4 : q < 1024 ^ 5 := (div_pow_lt_iff q 4).mp h4
            have hs : scaleIdx q = 4 := by
              unfold scaleIdx
              rw [if_neg h0, if_neg hq1, if_neg hq2, if_neg hq3, if_pos hq4]
            rw [if_pos h4, hs]
            rfl
          · have hq4 : ¬q < 1024 ^ 5 := fun hc => h4 ((div_pow_lt_iff q 4).mpr hc)
            have hs : scaleIdx q = 5 := by
              unfold scaleIdx
              rw [if_neg h0, if_neg hq1, if_neg hq2, if_neg hq3, if_neg hq4]
            rw [if_neg h4, fsLoop_nil, div_div_1024, hs, String.append_assoc,
              show (" " : String) ++ unitName 5 = " PB" from by decide]

theorem roundHalfEven_eq (x : ℚ) (f : ℤ) (hf : Rat.floor x = f)
    (h : x - (f : ℚ) < 1 / 2) : roundHalfEven x = f := by
  simp only [roundHalfEven]
  rw [hf, if_pos h]

theorem oneDecimal_three_halves : oneDecimal ((3 : ℚ) / 2) = "1.5" := by
  simp only [oneDecimal]
  rw [show ((3 : ℚ) / 2 * 10) = 15 from by norm_num,
    roundHalfEven_eq (15 : ℚ) 15 rfl (by norm_num)]
  decide

/-- C7: `format_file_size` scales a byte count through B, KB, MB, GB, TB,
PB dividing by 1024 at each step, formats the scaled value to one decimal
place, renders a null size as the literal "Unknown", and renders 1536
bytes as "1.5 KB". -/
theorem format_file_size_spec :
    format_file_size none = "Unknown" ∧
    format_file_size (some 1536) = "1.5 KB" ∧
    ∀ n : ℤ, n ≠ 0 →
      format_file_size (some n) =
        oneDecimal ((n : ℚ) / 1024 ^ scaleIdx (n : ℚ)) ++ " " ++
          unitName (scaleIdx (n : ℚ)) := by
  refine ⟨rfl, ?_, ?_⟩
  · have hnz : (1536 : ℤ) ≠ 0 := by decide
    show (if (1536 : ℤ) = 0 then "Unknown" else fsLoop size_units ((1536 : ℤ) : ℚ)) = "1.5 KB"
    rw [if_neg hnz, show ((1536 : ℤ) : ℚ) = 1536 from by norm_num]
    simp only [size_units]
    rw [fsLoop_cons, if_neg (by norm_num : ¬(1536 : ℚ) < 1024), fsLoop_cons,
      show (1536 : ℚ) / 1024 = 3 / 2 from by norm_num,
      if_pos (by norm_num : (3 : ℚ) / 2 < 1024), oneDecimal_three_halves]
    decide
  · intro n hn
    show (if n = 0 then "Unknown" else fsLoop size_units (n : ℚ)) = _
    rw [if_neg hn, fsLoop_char]

/-- Witness for C7 at 2048 bytes. -/
theorem format_file_size_spec_witness :
    (2048 : ℤ) ≠ 0 ∧
    format_file_size (some 2048) =
      oneDecimal ((2048 : ℚ) / 1024 ^ scaleIdx (2048 : ℚ)) ++ " " ++
        unitName (scaleIdx (2048 : ℚ)) :=
  ⟨by decide, format_file_size_spec.2.2 2048 (by decide)⟩

/-- C10: a size of exactly 0 bytes renders as "Unknown", the same output
as a null size (Python's `if not size_bytes:` treats `0` like `None`),
not as "0.0 B". -/
theorem format_file_size_zero :
    format_file_size (some 0) = format_file_size none ∧
    format_file_size (some 0) = "Unknown" :=
  ⟨rfl, rfl⟩

/- ---------------------------------------------------------------------
   Rendering with absent file metadata (C8).
   --------------------------------------------------------------------- -/

/-- C8: for every well-formed `AnalysisResult`, rendering with a null
`fileInfo` is total and differs from rendering with metadata only by the
omission of the file-size and MIME-type lines: both outputs share the
same head (title and filename lines) and the same tail (everything from
the metadata header on). -/
theorem render_no_fileinfo (a : AnalysisResult) (fi : FileMetadata) :
    format_analysis_response a none = renderHead a ++ renderTail a ∧
    format_analysis_response a (some fi) =
      renderHead a ++ (fileInfoLines fi ++ renderTail a) := by
  obtain ⟨f1, f2, f3, f4, f5⟩ := fi
  constructor
  · simp only [format_analysis_response, renderHead, renderTail, String.append_assoc]
  · cases f4 with
    | none =>
      simp only [format_analysis_response, renderHead, fileInfoLines, renderTail,
        String.append_assoc, String.append_empty]
    | some m =>
      by_cases he : m.isEmpty
      · simp only [format_analysis_response, renderHead, fileInfoLines, renderTail, he,
          Bool.not_true, Bool.false_eq_true, if_false, String.append_assoc,
          String.append_empty]
      · rw [Bool.not_eq_true] at he
        simp only [format_analysis_response, renderHead, fileInfoLines, renderTail, he,
          Bool.not_false, if_true, String.append_assoc]

/- ---------------------------------------------------------------------
   Totality and label validity (C2).
   --------------------------------------------------------------------- -/

/-- C2: `analyze_filename` is a total function (hence terminates and never
raises on any string, empty or pattern-free included) returning a fully
populated record whose `file_type` is "Unknown" or a declared format
label, and whose other category fields are null or a declared label of
their own table. -/
theorem analyze_filename_label_validity : ∀ s : String,
    (analyze_filename s).file_type ∈ "Unknown" :: format_patterns.map Prod.fst ∧
    (analyze_filename s).quality ∈
      (none : Option String) :: (quality_patterns.map fun r => some r.1) ∧
    (analyze_filename s).resolution ∈
      (none : Option String) :: (resolution_patterns.map fun r => some r.1) ∧
    (analyze_filename s).codec ∈
      (none : Option String) :: (video_codec_patterns.map fun r => some r.1) ∧
    (analyze_filename s).audio_codec ∈
      (none : Option String) :: (audio_codec_patterns.map fun r => some r.1) ∧
    (analyze_filename s).language ∈
      (none : Option String) :: (language_patterns.map fun r => some r.1) ∧
    (analyze_filename s).source ∈
      (none : Option String) :: (source_patterns.map fun r => some r.1) := by
  intro s
  refine ⟨?_, selectLabel_mem _ _, selectLabel_mem _ _, selectLabel_mem _ _,
    selectLabel_mem _ _, selectLabel_mem _ _, selectLabel_mem _ _⟩
  show (selectLabel format_patterns (lowerData s)).getD "Unknown" ∈ _
  rcases List.mem_cons.mp (selectLabel_mem format_patterns (lowerData s)) with h0 | h1
  · rw [h0]
    exact List.mem_cons_self _ _
  · obtain ⟨r, hr, he⟩ := List.mem_map.mp h1
    rw [← he]
    exact List.mem_cons_of_mem _ (List.mem_map.mpr ⟨r, hr, rfl⟩)

/- ---------------------------------------------------------------------
   The dead CAMRip rule (C9).
   --------------------------------------------------------------------- -/

theorem altHere_mono (after : List Char → Bool) (alts1 alts2 : List (List Tok))
    (hsub : ∀ a ∈ alts1, a ∈ alts2) (cs : List Char)
    (h : altHere after alts1 cs = true) : altHere after alts2 cs = true := by
  obtain ⟨a, ha, hm⟩ := List.any_eq_true.mp h
  exact List.any_eq_true.mpr ⟨a, hsub a ha, hm⟩

/-- A word pattern with more alternatives matches whenever one with fewer
does. -/
theorem pmatch_words_mono (alts1 alts2 : List (List Tok))
    (hsub : ∀ a ∈ alts1, a ∈ alts2) (cs : List Char)
    (h : pmatch (Pat.words alts1) cs = true) :
    pmatch (Pat.words alts2) cs = true := by
  have h1 : scanB (gWords alts1) none cs = true := h
  obtain ⟨i, hi, hg⟩ := (scanB_iff (gWords alts1) cs none).mp h1
  simp only [gWords, Bool.and_eq_true] at hg
  obtain ⟨hb, hh⟩ := hg
  show scanB (gWords alts2) none cs = true
  refine (scanB_iff (gWords alts2) cs none).mpr ⟨i, hi, ?_⟩
  simp only [gWords, Bool.and_eq_true]
  exact ⟨hb, altHere_mono _ _ _ hsub _ hh⟩

/-- C9: the "CAMRip" quality label is dead code — the earlier "CAM" rule's
pattern matches every string the "CAMRip" rule's pattern matches, and the
scan stops at the first match, so `analyze_filename` never selects
"CAMRip". -/
theorem quality_never_camrip : ∀ s : String,
    ((analyze_filename s).quality == some "CAMRip") = false := by
  intro s
  cases hq : (analyze_filename s).quality with
  | none => rfl
  | some l =>
    by_cases hl : l = "CAMRip"
    · subst hl
      exfalso
      have hsel : selectLabel quality_patterns (lowerData s) = some "CAMRip" := hq
      obtain ⟨k, hk, hkm, hkl, hmin⟩ := selectLabel_eq_some _ _ _ hsel
      have hnd : (quality_patterns.map Prod.fst).Nodup := by decide
      have h1 : (quality_patterns.map Prod.fst).get ⟨k, by simpa using hk⟩ = "CAMRip" := by
        rw [List.get_map]
        exact hkl
      have h2 : (quality_patterns.map Prod.fst).get ⟨1, by decide⟩ = "CAMRip" := rfl
      have hfin := (List.Nodup.get_inj_iff hnd).mp (h1.trans h2.symm)
      have hk1 : k = 1 := by simpa using congrArg Fin.val hfin
      subst hk1
      have h0 : pmatch (quality_patterns.get ⟨0, by decide⟩).2 (lowerData s) = false :=
        hmin 0 (by decide) (by decide)
      have hrip : pmatch (Pat.words [lits "camrip", lits "cam-rip"]) (lowerData s) = true := hkm
      have hcam : pmatch (Pat.words [lits "cam", lits "camrip", lits "cam-rip"])
          (lowerData s) = true :=
        pmatch_words_mono _ _ (by decide) _ hrip
      have h0' : pmatch (Pat.words [lits "cam", lits "camrip", lits "cam-rip"])
          (lowerData s) = false := h0
      rw [hcam] at h0'
      exact absurd h0' (by decide)
    · have : (l == "CAMRip") = false := beq_eq_false_iff_ne.mpr hl
      exact this

/- ---------------------------------------------------------------------
   First-match-wins per category (C1).
   --------------------------------------------------------------------- -/

theorem firstMatchWins_of (t : List (String × Pat))
    (field : AnalysisResult → Option String)
    (hnd : (t.map Prod.fst).Nodup)
    (hfield : ∀ (s : String) (l : String),
      selectLabel t (lowerData s) = some l → field (analyze_filename s) = some l) :
    FirstMatchWins t field := by
  intro s i j hi hj hij hmi
  obtain ⟨k, hk, hki, hkm, hmin, hsel⟩ := selectLabel_first t (lowerData s) i hi hmi
  have hf := hfield s _ hsel
  refine ⟨⟨k, hk, hki, hkm, hmin, hf⟩, ?_⟩
  have hkj : k ≠ j := Nat.ne_of_lt (lt_of_le_of_lt hki hij)
  intro hcon
  rw [hf] at hcon
  have hlab : (t.get ⟨k, hk⟩).1 = (t.get ⟨j, hj⟩).1 := Option.some.inj hcon
  have h1 : (t.map Prod.fst).get ⟨k, by simpa using hk⟩ =
      (t.map Prod.fst).get ⟨j, by simpa using hj⟩ := by
    rw [List.get_map, List.get_map]
    exact hlab
  have hfin := (List.Nodup.get_inj_iff hnd).mp h1
  exact hkj (by simpa using congrArg Fin.val hfin)

/-- C1: for every filename and every category (format, quality,
resolution, video codec, audio codec, language, source), the analyzer
scans the category's table in declared order and selects the label of the
earliest matching rule: whenever rule `i` matches, the selected label is
that of some rule `k ≤ i` before which no rule matches, and it is never
the label of any later rule `j > i`. -/
theorem first_match_wins_all :
    FirstMatchWins format_patterns (fun a => some a.file_type) ∧
    FirstMatchWins quality_patterns (fun a => a.quality) ∧
    FirstMatchWins resolution_patterns (fun a => a.resolution) ∧
    FirstMatchWins video_codec_patterns (fun a => a.codec) ∧
    FirstMatchWins audio_codec_patterns (fun a => a.audio_codec) ∧
    FirstMatchWins language_patterns (fun a => a.language) ∧
    FirstMatchWins source_patterns (fun a => a.source) := by
  refine ⟨?_, ?_, ?_, ?_, ?_, ?_, ?_⟩
  · refine firstMatchWins_of _ _ (by decide) ?_
    intro s l h
    show some ((selectLabel format_patterns (lowerData s)).getD "Unknown") = some l
    rw [h]
    rfl
  · exact firstMatchWins_of _ _ (by decide) fun s l h => h
  · exact firstMatchWins_of _ _ (by decide) fun s l h => h
  · exact firstMatchWins_of _ _ (by decide) fun s l h => h
  · exact firstMatchWins_of _ _ (by decide) fun s l h => h
  · exact firstMatchWins_of _ _ (by decide) fun s l h => h
  · exact firstMatchWins_of _ _ (by decide) fun s l h => h

/-- Witness for C1: a two-match regression fixture per category (for the
format table, whose extension anchors are mutually exclusive, rule 0
matching alone); in each case the earlier rule's label is selected and
the later rule's label is not. -/
theorem first_match_wins_all_witness :
    (analyze_filename "a.mkv").file_type = "MKV" ∧
    (analyze_filename "a.mkv").file_type ≠ "MP4" ∧
    (analyze_filename "Movie.camrip.avi").quality = some "CAM" ∧
    (analyze_filename "Movie.camrip.avi").quality ≠ some "CAMRip" ∧
    (analyze_filename "2160p.1080p.mkv").resolution = some "4K" ∧
    (analyze_filename "2160p.1080p.mkv").resolution ≠ some "1080p" ∧
    (analyze_filename "x264.x265.mkv").codec = some "H.264" ∧
    (analyze_filename "x264.x265.mkv").codec ≠ some "H.265" ∧
    (analyze_filename "aac.ac3.mkv").audio_codec = some "AAC" ∧
    (analyze_filename "aac.ac3.mkv").audio_codec ≠ some "AC3" ∧
    (analyze_filename "eng.hindi.mkv").language = some "English" ∧
    (analyze_filename "eng.hindi.mkv").language ≠ some "Hindi" ∧
    (analyze_filename "netflix.amzn.mkv").source = some "Netflix" ∧
    (analyze_filename "netflix.amzn.mkv").source ≠ some "Amazon Prime" := by
  obtain ⟨hfmt, hqu, hre, hco, hau, hla, hso⟩ := first_match_wins_all
  obtain ⟨⟨k1, hk1, hki1, _, _, he1⟩, hn1⟩ :=
    hfmt "a.mkv" 0 1 (by decide) (by decide) (by decide) (by decide)
  obtain ⟨⟨k2, hk2, hki2, _, _, he2⟩, hn2⟩ :=
    hqu "Movie.camrip.avi" 0 1 (by decide) (by decide) (by decide) (by decide)
  obtain ⟨⟨k3, hk3, hki3, _, _, he3⟩, hn3⟩ :=
    hre "2160p.1080p.mkv" 0 2 (by decide) (by decide) (by decide) (by decide)
  obtain ⟨⟨k4, hk4, hki4, _, _, he4⟩, hn4⟩ :=
    hco "x264.x265.mkv" 0 1 (by decide) (by decide) (by decide) (by decide)
  obtain ⟨⟨k5, hk5, hki5, _, _, he5⟩, hn5⟩ :=
    hau "aac.ac3.mkv" 0 1 (by decide) (by decide) (by decide) (by decide)
  obtain ⟨⟨k6, hk6, hki6, _, _, he6⟩, hn6⟩ :=
    hla "eng.hindi.mkv" 0 1 (by decide) (by decide) (by decide) (by decide)
  obtain ⟨⟨k7, hk7, hki7, _, _, he7⟩, hn7⟩ :=
    hso "netflix.amzn.mkv" 0 1 (by decide) (by decide) (by decide) (by decide)
  have hz1 : k1 = 0 := Nat.le_zero.mp hki1
  have hz2 : k2 = 0 := Nat.le_zero.mp hki2
  have hz3 : k3 = 0 := Nat.le_zero.mp hki3
  have hz4 : k4 = 0 := Nat.le_zero.mp hki4
  have hz5 : k5 = 0 := Nat.le_zero.mp hki5
  have hz6 : k6 = 0 := Nat.le_zero.mp hki6
  have hz7 : k7 = 0 := Nat.le_zero.mp hki7
  subst hz1 hz2 hz3 hz4 hz5 hz6 hz7
  refine ⟨Option.some.inj he1, fun hx => hn1 (congrArg some hx), he2, hn2, he3, hn3,
    he4, hn4, he5, hn5, he6, hn6, he7, hn7⟩

/- ---------------------------------------------------------------------
   Format is determined by the trailing extension segment alone (C6).
   --------------------------------------------------------------------- -/

theorem toNat_ofNat_valid (n : Nat) (h : n.isValidChar) : (Char.ofNat n).toNat = n := by
  unfold Char.ofNat
  rw [dif_pos h]
  rfl

/-- Lower-casing maps no character to a dot and leaves the dot fixed. -/
theorem toLower_eq_dot_iff (c : Char) : (Char.toLower c = '.') ↔ c = '.' := by
  constructor
  · intro h
    simp only [Char.toLower] at h
    by_cases hc : c.toNat ≥ 65 ∧ c.toNat ≤ 90
    · exfalso
      rw [if_pos hc] at h
      have hv : (c.toNat + 32).isValidChar := Or.inl (by omega)
      have h2 := congrArg Char.toNat h
      rw [toNat_ofNat_valid _ hv] at h2
      have h46 : ('.' : Char).toNat = 46 := rfl
      rw [h46] at h2
      omega
    · rw [if_neg hc] at h
      exact h
  · intro h
    subst h
    decide

theorem noDot_lastDotSeg (l : List Char) (h : '.' ∉ l) : lastDotSeg l = none := by
  induction l with
  | nil => rfl
  | cons c cs ih =>
    have hc : ¬c = '.' := fun hx => h (hx ▸ List.mem_cons_self c cs)
    have hcs : '.' ∉ cs := fun hx => h (List.mem_cons_of_mem c hx)
    simp [lastDotSeg, ih hcs, hc]

/-- A dot-headed block with a dot-free tail is a suffix exactly when it is
the trailing dot segment. -/
theorem suffix_lastDotSeg (w : List Char) (hw : '.' ∉ w) :
    ∀ cs : List Char, ('.' :: w <:+ cs) ↔ lastDotSeg cs = some ('.' :: w) := by
  intro cs
  induction cs with
  | nil => simp [lastDotSeg]
  | cons c cs ih =>
    rw [List.suffix_cons_iff]
    constructor
    · rintro (he | hs)
      · have hc : '.' = c := (List.cons.injEq _ _ _ _ ▸ he).1
        have hcs : w = cs := (List.cons.injEq _ _ _ _ ▸ he).2
        subst hcs
        simp [lastDotSeg, noDot_lastDotSeg w hw, ← hc]
      · simp [lastDotSeg, ih.mp hs]
    · intro h
      cases hL : lastDotSeg cs with
      | some s =>
        simp only [lastDotSeg, hL] at h
        have hs : s = '.' :: w := Option.some.inj h
        subst hs
        exact Or.inr (ih.mpr hL)
      | none =>
        simp only [lastDotSeg, hL] at h
        by_cases hc : c = '.'
        · rw [if_pos hc] at h
          exact Or.inl (Option.some.inj h).symm
        · rw [if_neg hc] at h
          exact absurd h (by simp)

theorem suffEnd_lastDotSeg (e : List Char) (he : '.' ∉ e) (cs : List Char) :
    suffEnd ('.' :: e) cs =
      ((lastDotSeg cs == some ('.' :: e)) ||
        (lastDotSeg cs == some ('.' :: (e ++ ['\n'])))) := by
  have hen : '.' ∉ e ++ ['\n'] := by
    intro hm
    rcases List.mem_append.mp hm with hm1 | hm2
    · exact he hm1
    · simp at hm2
  unfold suffEnd
  have h1 : (('.' :: e).isSuffixOf cs) = (lastDotSeg cs == some ('.' :: e)) := by
    apply Bool.coe_iff_coe.mp
    rw [List.isSuffixOf_iff_suffix, beq_iff_eq]
    exact suffix_lastDotSeg e he cs
  have h2 : ((('.' :: e) ++ ['\n']).isSuffixOf cs) =
      (lastDotSeg cs == some ('.' :: (e ++ ['\n']))) := by
    apply Bool.coe_iff_coe.mp
    rw [List.isSuffixOf_iff_suffix, beq_iff_eq]
    exact suffix_lastDotSeg (e ++ ['\n']) hen cs
  rw [h1, h2]

theorem pmatch_ext_congr (exts : List (List Char))
    (hx : (exts.all fun e => !(e.contains '.')) = true)
    (cs1 cs2 : List Char) (h : lastDotSeg cs1 = lastDotSeg cs2) :
    pmatch (Pat.ext exts) cs1 = pmatch (Pat.ext exts) cs2 := by
  show (exts.any fun e => suffEnd ('.' :: e) cs1) =
    (exts.any fun e => suffEnd ('.' :: e) cs2)
  induction exts with
  | nil => rfl
  | cons e es ih =>
    simp only [List.all_cons, Bool.and_eq_true] at hx
    obtain ⟨hd, hes⟩ := hx
    have hd' : '.' ∉ e := by simpa using hd
    simp only [List.any_cons]
    rw [suffEnd_lastDotSeg e hd' cs1, suffEnd_lastDotSeg e hd' cs2, h, ih hes]

theorem selectLabel_ext_congr (t : List (String × Pat))
    (ht : (t.all fun r => extRuleOk r.2) = true) (cs1 cs2 : List Char)
    (h : lastDotSeg cs1 = lastDotSeg cs2) :
    selectLabel t cs1 = selectLabel t cs2 := by
  induction t with
  | nil => rfl
  | cons r rest ih =>
    simp only [List.all_cons, Bool.and_eq_true] at ht
    obtain ⟨hr, hrest⟩ := ht
    cases hp2 : r.2 with
    | words alts => rw [hp2] at hr; exact absurd hr (by simp [extRuleOk])
    | wordsNot alts blocked => rw [hp2] at hr; exact absurd hr (by simp [extRuleOk])
    | ext exts =>
      rw [hp2] at hr
      have hx : (exts.all fun e => !(e.contains '.')) = true := hr
      show (if pmatch r.2 cs1 then some r.1 else selectLabel rest cs1) =
        (if pmatch r.2 cs2 then some r.1 else selectLabel rest cs2)
      rw [hp2, pmatch_ext_congr exts hx cs1 cs2 h, ih hrest]

theorem lastDotSeg_map_toLower (cs : List Char) :
    lastDotSeg (cs.map Char.toLower) =
      (lastDotSeg cs).map (List.map Char.toLower) := by
  induction cs with
  | nil => rfl
  | cons c cs ih =>
    show (match lastDotSeg (List.map Char.toLower cs) with
      | some s => some s
      | none => if Char.toLower c = '.'
          then some (Char.toLower c :: List.map Char.toLower cs) else none) = _
    rw [ih]
    cases hL : lastDotSeg cs with
    | some s =>
      show some (List.map Char.toLower s) = _
      simp [lastDotSeg, hL]
    | none =>
      show (if Char.toLower c = '.'
          then some (Char.toLower c :: List.map Char.toLower cs) else none) = _
      by_cases hc : c = '.'
      · rw [if_pos ((toLower_eq_dot_iff c).mpr hc)]
        subst hc
        simp [lastDotSeg, hL]
      · rw [if_neg (fun hx => hc ((toLower_eq_dot_iff c).mp hx))]
        simp [lastDotSeg, hL, hc]

/-- C6: any two filenames with the same trailing extension segment are
assigned the same `file_type` (changing anything outside the suffix never
changes the detected format), while quality and the other categories react
to evidence anywhere in the name: adding ".CAM" in the middle leaves the
segment — and hence the format — unchanged but flips the quality. -/
theorem format_suffix_only :
    (∀ x y : String, lastDotSeg x.data = lastDotSeg y.data →
      (analyze_filename x).file_type = (analyze_filename y).file_type) ∧
    lastDotSeg ("Movie.CAM.mkv" : String).data = lastDotSeg ("Movie.mkv" : String).data ∧
    (analyze_filename "Movie.CAM.mkv").quality = some "CAM" ∧
    (analyze_filename "Movie.mkv").quality = none := by
  refine ⟨?_, by decide, by decide, by decide⟩
  intro x y h
  show (selectLabel format_patterns (lowerData x)).getD "Unknown" =
    (selectLabel format_patterns (lowerData y)).getD "Unknown"
  have hx : lastDotSeg (lowerData x) = lastDotSeg (lowerData y) := by
    unfold lowerData
    rw [lastDotSeg_map_toLower, lastDotSeg_map_toLower, h]
  rw [selectLabel_ext_congr format_patterns (by decide) _ _ hx]

/-- Witness for C6: two names differing everywhere except the trailing
".mkv" segment receive the same format. -/
theorem format_suffix_only_witness :
    (analyze_filename "Alpha.mkv").file_type =
      (analyze_filename "Beta.2020.CAM.mkv").file_type :=
  format_suffix_only.1 "Alpha.mkv" "Beta.2020.CAM.mkv" (by decide)

/- ---------------------------------------------------------------------
   Season/episode extraction (C4).
   --------------------------------------------------------------------- -/

theorem ese_eq1 (s : String) (g : List Char × List Char)
    (h : searchSE1 (lowerData s) = some g) :
    _extract_season_episode s = some (seFmt g) := by
  simp only [_extract_season_episode]
  rw [h]

theorem ese_eq2 (s : String) (h1 : searchSE1 (lowerData s) = none)
    (g : List Char × List Char) (h2 : searchSE2 (lowerData s) = some g) :
    _extract_season_episode s = some (seFmt g) := by
  simp only [_extract_season_episode]
  rw [h1, h2]

theorem ese_eq3 (s : String) (h1 : searchSE1 (lowerData s) = none)
    (h2 : searchSE2 (lowerData s) = none) (g : List Char × List Char)
    (h3 : searchSE3 (lowerData s) = some g) :
    _extract_season_episode s = some (seFmt g) := by
  simp only [_extract_season_episode]
  rw [h1, h2, h3]

theorem ese_eq4 (s : String) (h1 : searchSE1 (lowerData s) = none)
    (h2 : searchSE2 (lowerData s) = none) (h3 : searchSE3 (lowerData s) = none) :
    _extract_season_episode s = none := by
  simp only [_extract_season_episode]
  rw [h1, h2, h3]

theorem zfill2_len (g : List Char) : 2 ≤ (zfill2 g).length := by
  unfold zfill2
  by_cases h : g.length < 2
  · rw [if_pos h, String.length_mk, List.length_append, List.length_replicate]
    omega
  · rw [if_neg h, String.length_mk]
    omega

/-- C4: the three season/episode pattern families are tried in the
priority order `S<num>E<num>`, then `season <num> episode <num>`, then
`<num>x<num>`; the first family with a match anywhere in the lower-cased
name wins (an S..E.. match beats an `<num>x<num>` match elsewhere in the
same filename), the result is rendered as `S<NN>E<NN>` with both numbers
zero-padded to two digits, and it is null exactly when no family
matches. -/
theorem se_priority_and_padding : ∀ s : String,
    (∀ g, searchSE1 (lowerData s) = some g →
      (analyze_filename s).format_details.season_episode = some (seFmt g)) ∧
    (searchSE1 (lowerData s) = none → ∀ g, searchSE2 (lowerData s) = some g →
      (analyze_filename s).format_details.season_episode = some (seFmt g)) ∧
    (searchSE1 (lowerData s) = none → searchSE2 (lowerData s) = none →
      ∀ g, searchSE3 (lowerData s) = some g →
      (analyze_filename s).format_details.season_episode = some (seFmt g)) ∧
    (searchSE1 (lowerData s) = none → searchSE2 (lowerData s) = none →
      searchSE3 (lowerData s) = none →
      (analyze_filename s).format_details.season_episode = none) ∧
    (∀ r, (analyze_filename s).format_details.season_episode = some r →
      ∃ g : List Char × List Char, r = seFmt g ∧
        2 ≤ (zfill2 g.1).length ∧ 2 ≤ (zfill2 g.2).length) := by
  intro s
  refine ⟨fun g h => ese_eq1 s g h, fun h1 g h2 => ese_eq2 s h1 g h2,
    fun h1 h2 g h3 => ese_eq3 s h1 h2 g h3, fun h1 h2 h3 => ese_eq4 s h1 h2 h3, ?_⟩
  intro r hr
  have hr' : _extract_season_episode s = some r := hr
  cases h1 : searchSE1 (lowerData s) with
  | some g =>
    rw [ese_eq1 s g h1] at hr'
    exact ⟨g, (Option.some.inj hr').symm, zfill2_len g.1, zfill2_len g.2⟩
  | none =>
    cases h2 : searchSE2 (lowerData s) with
    | some g =>
      rw [ese_eq2 s h1 g h2] at hr'
      exact ⟨g, (Option.some.inj hr').symm, zfill2_len g.1, zfill2_len g.2⟩
    | none =>
      cases h3 : searchSE3 (lowerData s) with
      | some g =>
        rw [ese_eq3 s h1 h2 g h3] at hr'
        exact ⟨g, (Option.some.inj hr').symm, zfill2_len g.1, zfill2_len g.2⟩
      | none =>
        rw [ese_eq4 s h1 h2 h3] at hr'
        exact absurd hr' (by simp)

/-- Witness for C4: an `S..E..` match beats an earlier-positioned
`<num>x<num>` match; the other two families and the null case are also
exercised, with zero-padding visible on the one-digit groups. -/
theorem se_priority_and_padding_witness :
    (analyze_filename "Show.1x02.S03E04.mkv").format_details.season_episode =
      some "S03E04" ∧
    (analyze_filename "season 1 episode 2").format_details.season_episode =
      some "S01E02" ∧
    (analyze_filename "file.1x02").format_details.season_episode = some "S01E02" ∧
    (analyze_filename "abc.mkv").format_details.season_episode = none := by
  refine ⟨?_, ?_, ?_, ?_⟩
  · have h := (se_priority_and_padding "Show.1x02.S03E04.mkv").1
      (['0', '3'], ['0', '4']) (by decide)
    exact h.trans (by decide)
  · have h := (se_priority_and_padding "season 1 episode 2").2.1 (by decide)
      (['1'], ['2']) (by decide)
    exact h.trans (by decide)
  · have h := (se_priority_and_padding "file.1x02").2.2.1 (by decide) (by decide)
      (['1'], ['0', '2']) (by decide)
    exact h.trans (by decide)
  · exact (se_priority_and_padding "abc.mkv").2.2.2.1 (by decide) (by decide) (by decide)

/- ---------------------------------------------------------------------
   Year extraction (C3).
   --------------------------------------------------------------------- -/

/-- C3 counterexample: "ab1984cd" contains the 4-digit run "1984" starting
with "19" (maximal among digits, as the claim's "run" requires), so the
claim as stated demands `year = "1984"`; the code's `\b` boundaries reject
it because the run is flanked by word characters, and the analyzer
returns null. -/
theorem year_claim_cex :
    (analyze_filename "ab1984cd").format_details.year = none ∧
    yearClaimFirst "ab1984cd" = some "1984" :=
  ⟨by decide, by decide⟩

theorem prevOk_prevAt (cs : List Char) (i : Nat) :
    prevOk (prevAt none cs i) = wordBoundBefore cs i := by
  cases i with
  | zero => rfl
  | succ j =>
    show prevOk (cs.get? j) = !(Option.any isWordChar (cs.get? j))
    cases cs.get? j with
    | none => rfl
    | some c => rfl

theorem nextOk_drop (cs : List Char) (j : Nat) :
    nextOk (cs.drop j) = wordBoundAfter cs j := by
  unfold wordBoundAfter
  cases hd : cs.drop j with
  | nil =>
    have hj : cs.get? j = none := by
      rw [List.get?_eq_getElem?, ← List.head?_drop, hd]
      rfl
    rw [hj]
    rfl
  | cons c r =>
    have hj : cs.get? j = some c := by
      rw [List.get?_eq_getElem?, ← List.head?_drop, hd]
      rfl
    rw [hj]
    rfl

/-- The regex step `\b(19|20)\d{2}\b` at position `i` succeeds exactly on
the indices satisfying the boundary-delimited year condition, producing
those four characters. -/
theorem yearAt_idx (cs : List Char) (i : Nat) :
    yearAt (prevAt none cs i) (cs.drop i) =
      if yearIdxAt cs i then some (String.mk ((cs.drop i).take 4)) else none := by
  have hg : ∀ k, cs.get? (i + k) = (cs.drop i).get? k := by
    intro k
    rw [List.get?_eq_getElem?, List.get?_eq_getElem?, ← List.head?_drop,
      ← List.head?_drop, List.drop_drop]
  have hg0 : cs.get? i = (cs.drop i).get? 0 := by
    have := hg 0
    rwa [Nat.add_zero] at this
  have hwa : wordBoundAfter cs (i + 4) = nextOk ((cs.drop i).drop 4) := by
    rw [List.drop_drop, nextOk_drop]
  simp only [yearIdxAt, hwa, ← prevOk_prevAt, hg0, hg 1, hg 2, hg 3]
  cases hl : cs.drop i with
  | nil => simp [yearAt]
  | cons a t1 =>
    cases t1 with
    | nil => simp [yearAt]
    | cons b t2 =>
      cases t2 with
      | nil => simp [yearAt]
      | cons c t3 =>
        cases t3 with
        | nil => simp [yearAt]
        | cons d rest =>
          show yearAt (prevAt none cs i) (a :: b :: c :: d :: rest) = _
          unfold yearAt
          refine if_congr ?_ rfl rfl
          simp only [Bool.and_eq_true, Bool.or_eq_true, beq_iff_eq,
            List.get?_cons_zero, List.get?_cons_succ, List.take_succ_cons,
            List.take_zero, List.all_cons, List.all_nil, List.length_cons,
            List.length_nil, Option.some.injEq, Option.any_some, List.drop_succ_cons,
            List.drop_zero]

/-- C3 as amended: `year` is the first (leftmost) 19xx/20xx 4-digit run of
the original (not lower-cased) filename that is delimited by word
boundaries on both sides — not merely by non-digits — chosen by string
position, with no further calendar validation; null when no such run
exists. -/
theorem year_amended : ∀ s : String,
    (∀ i, yearIdxAt s.data i = true → (∀ m, m < i → yearIdxAt s.data m = false) →
      (analyze_filename s).format_details.year =
        some (String.mk ((s.data.drop i).take 4))) ∧
    ((∀ i, i < s.data.length → yearIdxAt s.data i = false) →
      (analyze_filename s).format_details.year = none) := by
  intro s
  have hyear : (analyze_filename s).format_details.year = scanO yearAt none s.data := rfl
  constructor
  · intro i hi hmin
    rw [hyear]
    have hlen : i ≤ s.data.length := by
      by_contra hgt
      have h2 : s.data.get? (i + 2) = none := List.get?_eq_none.mpr (by omega)
      rw [yearIdxAt, h2] at hi
      simp at hi
    refine (scanO_eq_some yearAt s.data none _).mpr ⟨i, hlen, ?_, ?_⟩
    · rw [yearAt_idx, if_pos hi]
    · intro m hm
      rw [yearAt_idx, hmin m hm]
      rfl
  · intro hall
    rw [hyear]
    refine (scanO_eq_none yearAt s.data none).mpr ?_
    intro i hi
    rw [yearAt_idx]
    by_cases hlt : i < s.data.length
    · rw [hall i hlt]
      rfl
    · have h2 : s.data.get? (i + 2) = none := List.get?_eq_none.mpr (by omega)
      have hfalse : yearIdxAt s.data i = false := by
        rw [yearIdxAt, h2]
        simp
      rw [hfalse]
      rfl

/-- Witness for C3's amended statement: of two boundary-delimited years
the leftmost is returned; a name with none yields null. -/
theorem year_amended_witness :
    (analyze_filename "Movie.2019.2020.mkv").format_details.year = some "2019" ∧
    (analyze_filename "abc.mkv").format_details.year = none := by
  constructor
  · have h := (year_amended "Movie.2019.2020.mkv").1 6 (by decide) (by decide)
    exact h.trans (by decide)
  · exact (year_amended "abc.mkv").2 (by decide)

/- ---------------------------------------------------------------------
   The HDR flag (C5).
   --------------------------------------------------------------------- -/

/-- C5 counterexample: in `\b(hdr|hdr10|dolby.vision)\b` the dot is not
escaped, so it is a wildcard; "dolbyxvision" contains no literal
"dolby.vision" (and no hdr word), yet the analyzer sets `is_hdr`. -/
theorem hdr_claim_cex :
    (analyze_filename "dolbyxvision").format_details.is_hdr = true ∧
    hdrSpecClaim "dolbyxvision" = false :=
  ⟨by decide, by decide⟩

theorem matchToksRem_litsList (w : List Char) : ∀ l : List Char,
    matchToksRem (w.map Tok.lit) l =
      if l.take w.length = w then [l.drop w.length] else [] := by
  induction w with
  | nil => intro l; simp [matchToksRem]
  | cons c w ih =>
    intro l
    cases l with
    | nil => simp [matchToksRem]
    | cons d l2 =>
      simp only [List.map_cons, matchToksRem]
      by_cases hd : d = c
      · rw [if_pos hd, ih l2]
        subst hd
        simp [List.take_succ_cons, List.drop_succ_cons, List.cons.injEq]
      · rw [if_neg hd, if_neg (by simp [List.take_succ_cons, List.cons.injEq, hd])]

theorem matchToksRem_append (ts1 ts2 : List Tok) : ∀ l,
    matchToksRem (ts1 ++ ts2) l =
      (matchToksRem ts1 l).flatMap (matchToksRem ts2) := by
  induction ts1 with
  | nil => intro l; simp [matchToksRem]
  | cons t ts ih =>
    intro l
    cases t with
    | lit c =>
      cases l with
      | nil => simp [matchToksRem]
      | cons d l2 =>
        simp only [List.cons_append, matchToksRem]
        by_cases hd : d = c
        · rw [if_pos hd, if_pos hd]
          exact ih l2
        · rw [if_neg hd, if_neg hd]
          simp
    | any =>
      cases l with
      | nil => simp [matchToksRem]
      | cons d l2 =>
        simp only [List.cons_append, matchToksRem]
        by_cases hd : d = '\n'
        · rw [if_pos hd, if_pos hd]
          simp
        · rw [if_neg hd, if_neg hd]
          exact ih l2
    | opt c =>
      cases l with
      | nil =>
        simp only [List.cons_append, matchToksRem]
        exact ih []
      | cons d l2 =>
        simp only [List.cons_append, matchToksRem, List.flatMap_append]
        by_cases hd : d = c
        · rw [if_pos hd, if_pos hd]
          exact congrArg₂ (· ++ ·) (ih l2) (ih (d :: l2))
        · rw [if_neg hd, if_neg hd]
          simp only [List.nil_append, List.flatMap_nil]
          exact ih (d :: l2)

theorem any_nextOk_lits (w l : List Char) :
    ((matchToksRem (w.map Tok.lit) l).any nextOk) =
      ((l.take w.length == w) && nextOk (l.drop w.length)) := by
  rw [matchToksRem_litsList]
  by_cases h : l.take w.length = w
  · rw [if_pos h]
    simp [h]
  · rw [if_neg h]
    simp [h]

theorem any_nextOk_dolby (l : List Char) :
    ((matchToksRem (lits "dolby" ++ [Tok.any] ++ lits "vision") l).any nextOk) =
      ((l.take 5 == "dolby".data) &&
        ((match l.get? 5 with
          | some c => c != '\n'
          | none => false) &&
         (((l.drop 6).take 6 == "vision".data) && nextOk (l.drop 12)))) := by
  have hsplit : lits "dolby" ++ [Tok.any] ++ lits "vision" =
      ("dolby".data.map Tok.lit) ++ ([Tok.any] ++ ("vision".data.map Tok.lit)) := by
    simp [lits, List.append_assoc]
  rw [hsplit, matchToksRem_append, matchToksRem_litsList]
  have h5 : ("dolby".data).length = 5 := rfl
  rw [h5]
  by_cases hdol : l.take 5 = "dolby".data
  · rw [if_pos hdol]
    simp only [List.flatMap_cons, List.flatMap_nil, List.append_nil,
      matchToksRem_append]
    cases hd : l.drop 5 with
    | nil =>
      have hg5 : l.get? 5 = none := by
        rw [List.get?_eq_getElem?, ← List.head?_drop, hd]
        rfl
      rw [hg5]
      simp [matchToksRem]
    | cons c r =>
      have hg5 : l.get? 5 = some c := by
        rw [List.get?_eq_getElem?, ← List.head?_drop, hd]
        rfl
      have hr : r = l.drop 6 := by
        rw [show (6 : Nat) = 5 + 1 from rfl, ← List.tail_drop, hd]
        rfl
      rw [hg5]
      show ((matchToksRem [Tok.any] (c :: r)).flatMap
        (matchToksRem ("vision".data.map Tok.lit))).any nextOk = _
      by_cases hc : c = '\n'
      · show ((if c = '\n' then [] else matchToksRem [] r).flatMap
          (matchToksRem ("vision".data.map Tok.lit))).any nextOk = _
        rw [if_pos hc]
        simp [hdol, hc]
      · show ((if c = '\n' then [] else matchToksRem [] r).flatMap
          (matchToksRem ("vision".data.map Tok.lit))).any nextOk = _
        rw [if_neg hc]
        show ((matchToksRem ("vision".data.map Tok.lit) r) ++ []).any nextOk = _
        rw [List.append_nil, matchToksRem_litsList]
        have h6 : ("vision".data).length = 6 := rfl
        rw [h6, ← hr]
        have hr12 : r.drop 6 = l.drop 12 := by
          rw [hr, List.drop_drop]
        by_cases hv : r.take 6 = "vision".data
        · rw [if_pos hv]
          simp [hdol, hv, hc, hr12]
        · rw [if_neg hv]
          simp [hv]
  · rw [if_neg hdol]
    simp [hdol]

/-- The position test of the HDR pattern agrees with the indexed
whole-word conditions of the amended claim. -/
theorem gWords_hdr_at (cs : List Char) (i : Nat) :
    gWords [lits "hdr", lits "hdr10", lits "dolby" ++ [Tok.any] ++ lits "vision"]
        (prevAt none cs i) (cs.drop i) =
      (wordAtIdx cs i ("hdr".data) || wordAtIdx cs i ("hdr10".data) ||
        dolbyAnyAt cs i) := by
  have hba : ∀ n : Nat, nextOk ((cs.drop i).drop n) = wordBoundAfter cs (i + n) := by
    intro n
    rw [List.drop_drop, nextOk_drop]
  have hget : ∀ k : Nat, (cs.drop i).get? k = cs.get? (i + k) := by
    intro k
    rw [List.get?_eq_getElem?, List.get?_eq_getElem?, ← List.head?_drop,
      ← List.head?_drop, List.drop_drop]
  apply Bool.coe_iff_coe.mp
  unfold gWords altHere
  simp only [List.any_cons, List.any_nil, Bool.or_false]
  rw [show lits "hdr" = "hdr".data.map Tok.lit from rfl,
    show lits "hdr10" = "hdr10".data.map Tok.lit from rfl,
    any_nextOk_lits, any_nextOk_lits, any_nextOk_dolby,
    prevOk_prevAt, hba, hba, hba, hget 5]
  unfold wordAtIdx dolbyAnyAt
  rw [show cs.drop (i + 6) = (cs.drop i).drop 6 from (List.drop_drop 6 i cs).symm]
  simp only [Bool.and_eq_true, Bool.or_eq_true]
  tauto

/-- C5 as amended: `is_hdr` is true exactly when the lower-cased filename
contains the whole word "hdr" or "hdr10", or "dolby" followed by any
single non-newline character (the unescaped dot is a wildcard, not a
literal) followed by "vision". -/
theorem hdr_amended : ∀ s : String,
    (analyze_filename s).format_details.is_hdr = hdrSpecAmended s := by
  intro s
  have hh : (analyze_filename s).format_details.is_hdr =
      scanB (gWords [lits "hdr", lits "hdr10", lits "dolby" ++ [Tok.any] ++ lits "vision"])
        none (lowerData s) := rfl
  apply Bool.coe_iff_coe.mp
  rw [hh, scanB_iff]
  unfold hdrSpecAmended
  rw [List.any_eq_true]
  constructor
  · rintro ⟨i, hi, hg⟩
    refine ⟨i, List.mem_range.mpr (by omega), ?_⟩
    rw [← gWords_hdr_at]
    exact hg
  · rintro ⟨i, hmem, hp⟩
    have hi : i ≤ (lowerData s).length := by
      have := List.mem_range.mp hmem
      omega
    refine ⟨i, hi, ?_⟩
    rw [gWords_hdr_at]
    exact hp

/-- Witness for C5's amended statement at a concrete filename. -/
theorem hdr_amended_witness :
    (analyze_filename "Movie.HDR10.mkv").format_details.is_hdr =
      hdrSpecAmended "Movie.HDR10.mkv" :=
  hdr_amended "Movie.HDR10.mkv"

/-- Witness for C2 at a concrete filename. -/
theorem analyze_filename_label_validity_witness :
    (analyze_filename "Movie.2023.1080p.BluRay.x264.mkv").file_type ∈
      "Unknown" :: format_patterns.map Prod.fst :=
  (analyze_filename_label_validity "Movie.2023.1080p.BluRay.x264.mkv").1

/-- Witness for C9 at a filename that does match the CAMRip pattern. -/
theorem quality_never_camrip_witness :
    ((analyze_filename "camrip.avi").quality == some "CAMRip") = false :=
  quality_never_camrip "camrip.avi"

/-- Witness for C8 at a concrete result and file metadata record. -/
theorem render_no_fileinfo_witness :
    format_analysis_response (analyze_filename "Movie.mkv") none =
      renderHead (analyze_filename "Movie.mkv") ++
        renderTail (analyze_filename "Movie.mkv") :=
  (render_no_fileinfo (analyze_filename "Movie.mkv")
    ⟨"id", "Movie.mkv", some 1536, some "video/x-matroska", "uid"⟩).1

end Metadata
